import Mathlib

/-
Verification of the metric store (src/internal/metrics/store.go) and the
bytecode code generator's test table (src/unnamed/part_000) of the mtail
repository, as a shallow embedding in Lean 4.

Conventions of the embedding:
* Go machine integers and `time.Duration`/timestamps are modelled as `Int`
  (no overflow is relevant to the verified claims).
* The `sync.Map` inside `Store` is modelled as an association list in
  iteration order; `maphash` keys are modelled by the injective pair
  (Name, Program), following the documented assumption that hash collisions
  do not occur within a process lifetime.
* Fallible Go functions returning `error` are modelled with `Except String`
  or with an `Option String` error component.
-/

-- ===== Metric and Datum model (package metrics) =====

/-- Metric kind discriminator: Counter, Gauge, Timer, Histogram. -/
inductive Kind where
  | Counter
  | Gauge
  | Timer
  | Histogram
deriving DecidableEq, Repr

/-- Modelled from the spec: `Datum` (datum.go is not under src/): a mutable
value cell plus last-write timestamp.  The cell content is modelled as `Int`,
the timestamp as `Int` (`TimeUTC` of the Go code is the `time` field). -/
structure Datum where
  value : Int
  time : Int
deriving DecidableEq, Repr

/-- Modelled from the spec: `LabelValue` (metric.go is not under src/): one
concrete label tuple, its Datum, and an optional Expiry duration
(zero or negative = never expires). -/
structure LabelValue where
  Labels : List String
  Value : Datum
  Expiry : Int
deriving DecidableEq, Repr

/-- Modelled from the spec: `Metric` (metric.go is not under src/): identified
by (Name, originating Program), with a Kind, ordered label-dimension Keys and
a collection of LabelValue entries. -/
structure Metric where
  Name : String
  Program : String
  Kind : Kind
  Keys : List String
  LabelValues : List LabelValue
deriving DecidableEq, Repr

/-- Modelled from the spec: `Metric.GetDatum` (metric.go is not under src/,
spec section 4.4): operates on an exact ordered label tuple, returning the
existing Datum or upserting a zero Datum on miss.  A tuple whose length
differs from Keys can name no LabelValue (the section 3 invariant) and is an
error, as required for the upsert to maintain that invariant. -/
def Metric.GetDatum (m : Metric) (labels : List String) : Except String (Metric × Datum) :=
  if labels.length ≠ m.Keys.length then
    .error "label values not same length as keys"
  else
    match m.LabelValues.find? (fun lv => lv.Labels == labels) with
    | some lv => .ok (m, lv.Value)
    | none =>
      .ok ({ m with LabelValues := m.LabelValues ++ [⟨labels, ⟨0, 0⟩, 0⟩] }, ⟨0, 0⟩)

/-- Modelled from the spec: `Metric.RemoveDatum` (metric.go is not under src/,
spec section 4.4): operates on an exact ordered label tuple and fails with a
not-found condition if absent; a tuple whose length differs from Keys is an
error for the same reason as in `Metric.GetDatum`.  Removal drops the first
matching LabelValue. -/
def Metric.RemoveDatum (m : Metric) (labels : List String) : Except String Metric :=
  if labels.length ≠ m.Keys.length then
    .error "label values not same length as keys"
  else if m.LabelValues.any (fun lv => lv.Labels == labels) then
    .ok { m with LabelValues := m.LabelValues.eraseP (fun lv => lv.Labels == labels) }
  else
    .error "no datum found"

-- ===== Store (src/internal/metrics/store.go) =====

/-- The key type of the store map: `hashMetric` hashes (name, prog) with
maphash; collisions are documented as assumed non-occurring, so the key is
modelled as the injective pair itself. -/
abbrev StoreKey := String × String

/-- `Store.Metrics`: the sync.Map from hash(Name, Program) to Metric,
modelled as an association list in iteration order. -/
abbrev Store := List (StoreKey × Metric)

/-- store.go `hashMetric`: the map key for a (name, prog) pair. -/
def hashMetric (name prog : String) : StoreKey := (name, prog)

/-- `sync.Map.Load`: the first entry for key `k`, if any. -/
def Store.findKey (s : Store) (k : StoreKey) : Option Metric :=
  (s.find? (fun e => e.1 == k)).map (fun e => e.2)

/-- `sync.Map.Store`: replace the entry for `k` in place, or append it. -/
def Store.set (s : Store) (k : StoreKey) (m : Metric) : Store :=
  match s with
  | [] => [(k, m)]
  | e :: rest => if e.1 == k then (k, m) :: rest else e :: Store.set rest k m

/-- store.go `Store.Add`: add one metric to the store.  `LoadOrStore` stores
`m` directly on an absent key; on a present key with a different Kind it
fails leaving the store untouched; on identical Keys it runs the migration
loop (each old Datum is appended to `m` only when `m.RemoveDatum` on that
tuple succeeds, per the nested `err == nil` guards) and then `Store`s the
result, otherwise it `Store`s `m` as is. -/
def Store.Add (s : Store) (m : Metric) : Option String × Store :=
  let k := hashMetric m.Name m.Program
  match Store.findKey s k with
  | none => (none, s ++ [(k, m)])
  | some v =>
    if m.Kind ≠ v.Kind then
      (some ("Metric " ++ m.Name ++ " has different kind to existing"), s)
    else
      let m2 :=
        if v.Keys.length == m.Keys.length && v.Keys == m.Keys then
          v.LabelValues.foldl (fun acc oldLabel =>
            match v.GetDatum oldLabel.Labels with
            | .ok (_, d) =>
              match acc.RemoveDatum oldLabel.Labels with
              | .ok acc2 =>
                { acc2 with LabelValues := acc2.LabelValues ++ [⟨oldLabel.Labels, d, 0⟩] }
              | .error _ => acc
            | .error _ => acc) m
        else m
      (none, Store.set s k m2)

/-- store.go `Store.FindMetricOrNil`: look up by (name, prog), `none` models
the nil return. -/
def Store.FindMetricOrNil (s : Store) (name prog : String) : Option Metric :=
  Store.findKey s (hashMetric name prog)

/-- store.go `Store.Range`: call `f` sequentially on each Metric; if `f`
returns a non-nil error, stop the iteration and return it. -/
def Store.Range (s : Store) (f : Metric → Option String) : Option String :=
  match s with
  | [] => none
  | e :: rest =>
    match f e.2 with
    | some err => some err
    | none => Store.Range rest f

/-- The trace of metrics actually passed to the callback by `Store.Range`
(same iteration structure, recording the visited metrics). -/
def Store.RangeVisited (s : Store) (f : Metric → Option String) : List Metric :=
  match s with
  | [] => []
  | e :: rest =>
    match f e.2 with
    | some _ => [e.2]
    | none => e.2 :: Store.RangeVisited rest f

-- ===== Gc (src/internal/metrics/store.go) =====

/-- The body of the `Gc` loop for the yet-unprocessed suffix of the original
`LabelValues` slice (Go ranges over the original slice while `RemoveDatum`
mutates the metric, here threaded as `acc`): skip a tuple with
`Expiry <= 0`; when `now - Value.time > Expiry`, remove it, aborting on a
removal error. -/
def gcMetricAux (now : Int) : List LabelValue → Metric → Option String × Metric
  | [], acc => (none, acc)
  | lv :: rest, acc =>
    if lv.Expiry ≤ 0 then
      gcMetricAux now rest acc
    else if lv.Expiry < now - lv.Value.time then
      match acc.RemoveDatum lv.Labels with
      | .error e => (some e, acc)
      | .ok acc2 => gcMetricAux now rest acc2
    else
      gcMetricAux now rest acc

/-- The per-metric sweep performed by the `Gc` callback on one metric. -/
def gcMetric (now : Int) (m : Metric) : Option String × Metric :=
  gcMetricAux now m.LabelValues m

/-- store.go `Store.Gc`: sweep every metric via `Range`; the callback mutates
its metric in place, so an error aborts the iteration leaving already-swept
prefixes (including the partial sweep of the failing metric) applied and the
remaining entries untouched.  `now` models `time.Now()`. -/
def Store.Gc (now : Int) : Store → Option String × Store
  | [] => (none, [])
  | (k, m) :: rest =>
    match gcMetric now m with
    | (some e, m2) => (some e, (k, m2) :: rest)
    | (none, m2) =>
      let r := Store.Gc now rest
      (r.1, (k, m2) :: r.2)

-- ===== Instruction set and code generator (src/unnamed/part_000) =====

/-- The opcode vocabulary of the bytecode (spec section 4.1).  `matchOp` is
the Go opcode `match` (a Lean keyword). -/
inductive opcode where
  | matchOp
  | jnm
  | jm
  | jmp
  | push
  | pop
  | capref
  | str
  | mload
  | dload
  | inc
  | set
  | cmp
  | strptime
  | setmatched
  | s2i
  | i2s
  | s2f
  | f2s
deriving DecidableEq, Repr

/-- `instr`: one opcode plus one untyped immediate operand (the test table
in src/unnamed/part_000 writes `instr{op, opnd}`). -/
structure instr where
  op : opcode
  opnd : Int
deriving DecidableEq, Repr

/-- Modelled from the spec: the relational operators of the source language
(the parser front end is not under src/). -/
inductive relop where
  | lt
  | le
  | eq
  | ne
  | ge
  | gt
deriving DecidableEq, Repr

/-- Modelled from the spec: expressions appearing as relational operands in
the test programs: an integer literal or a capture reference. -/
inductive mexpr where
  | lit (n : Int)
  | capref (i : Int)
deriving DecidableEq, Repr

/-- Modelled from the spec: a source-level condition: a pattern (interned at
a pattern-table index) or a relational expression. -/
inductive mcond where
  | rx (idx : Int)
  | rel (l : mexpr) (op : relop) (r : mexpr)
deriving DecidableEq, Repr

mutual
/-- Modelled from the spec: statements of a parsed program (the parser front
end is not under src/): metric increment, increment-by, set, strptime, and
a nested conditional block. -/
inductive stmt where
  | inc (m : Int)
  | incBy (m : Int) (e : mexpr)
  | setM (m : Int) (e : mexpr)
  | strp (e : mexpr)
  | block (c : mcond) (body : stmts)
deriving DecidableEq, Repr

/-- A list of statements (mutual with `stmt` so the compiler recurses
structurally). -/
inductive stmts where
  | nil
  | cons (s : stmt) (rest : stmts)
deriving DecidableEq, Repr
end

/-- Spec section 4.3 table: the `cmp` operand emitted for a relational
operator. -/
def cmpOperand : relop → Int
  | .lt => -1
  | .le => 1
  | .eq => 0
  | .ne => 0
  | .ge => -1
  | .gt => 1

/-- Spec section 4.3 table: the branch opcode emitted for a relational
operator. -/
def branchOp : relop → opcode
  | .lt => .jnm
  | .le => .jm
  | .eq => .jnm
  | .ne => .jm
  | .ge => .jm
  | .gt => .jnm

/-- Modelled from the spec: code emitted for a relational operand: a literal
pushes itself; a capture reference compiles to `push 0; capref i` (as in the
test table entries "strptime and capref" and "inc by and set"). -/
def compileExpr : mexpr → List instr
  | .lit n => [⟨.push, n⟩]
  | .capref i => [⟨.push, 0⟩, ⟨.capref, i⟩]

/-- Modelled from the spec: condition code: a pattern match, or operand code
followed by `cmp` with the section 4.3 operand. -/
def compileCond : mcond → List instr
  | .rx i => [⟨.matchOp, i⟩]
  | .rel l op r => compileExpr l ++ compileExpr r ++ [⟨.cmp, cmpOperand op⟩]

/-- The branch-on-false opcode for a condition: `jnm` after a pattern match,
the section 4.3 branch opcode after a comparison. -/
def condBranch : mcond → opcode
  | .rx _ => .jnm
  | .rel _ op _ => branchOp op

mutual
/-- Modelled from the spec: code for one statement starting at instruction
index `pc`; a conditional block emits condition code, a branch-on-false past
the block (the backpatched forward target), then the body. -/
def compileStmt (pc : Nat) : stmt → List instr
  | .inc m => [⟨.mload, m⟩, ⟨.inc, 0⟩]
  | .incBy m e => ⟨.mload, m⟩ :: (compileExpr e ++ [⟨.inc, 1⟩])
  | .setM m e => ⟨.mload, m⟩ :: (compileExpr e ++ [⟨.set, 0⟩])
  | .strp e => compileExpr e ++ [⟨.str, 0⟩, ⟨.strptime, 2⟩]
  | .block c body =>
    let ccode := compileCond c
    let bcode := compileBlock (pc + ccode.length + 1) body
    ccode ++ (⟨condBranch c, ((pc + ccode.length + 1 + bcode.length : Nat) : Int)⟩ :: bcode)

/-- Modelled from the spec: code for a statement sequence starting at `pc`. -/
def compileBlock (pc : Nat) : stmts → List instr
  | .nil => []
  | .cons s rest =>
    let sc := compileStmt pc s
    sc ++ compileBlock (pc + sc.length) rest
end

/-- Modelled from the spec: `Compile` (the code generator is not under src/;
only its test table is): lower one parsed program, a statement sequence from
the external parser front end, into a linear bytecode program. -/
def Compile (p : stmts) : List instr :=
  compileBlock 0 p

-- ===== The compiler test table (src/unnamed/part_000, `var programs`) =====

/-- One entry of the `programs` test table: test name, source program text,
and expected bytecode. -/
structure testProgram where
  name : String
  source : String
  prog : List instr
deriving DecidableEq, Repr

/-- The `programs` table of src/unnamed/part_000: the expected bytecode for
each test source program (brace characters in the source texts are written
with \x7b/\x7d escapes). -/
def programs : List testProgram :=
  [⟨"simple line counter",
    "counter line_count\n/$/ \x7b line_count++ \x7d",
    [⟨.matchOp, 0⟩, ⟨.jnm, 4⟩, ⟨.mload, 0⟩, ⟨.inc, 0⟩]⟩,
   ⟨"count a",
    "counter a_count\n/a$/ \x7b a_count++ \x7d",
    [⟨.matchOp, 0⟩, ⟨.jnm, 4⟩, ⟨.mload, 0⟩, ⟨.inc, 0⟩]⟩,
   ⟨"strptime and capref",
    "counter foo\n/(.*)/ \x7b strptime($1, \"2006-01-02T15:04:05\")foo++ \x7d",
    [⟨.matchOp, 0⟩, ⟨.jnm, 8⟩, ⟨.push, 0⟩, ⟨.capref, 1⟩, ⟨.str, 0⟩,
     ⟨.strptime, 2⟩, ⟨.mload, 0⟩, ⟨.inc, 0⟩]⟩,
   ⟨"strptime and named capref",
    "counter foo\n/(?P<date>.*)/ \x7b strptime($date, \"2006-01-02T15:04:05\")foo++ \x7d",
    [⟨.matchOp, 0⟩, ⟨.jnm, 8⟩, ⟨.push, 0⟩, ⟨.capref, 1⟩, ⟨.str, 0⟩,
     ⟨.strptime, 2⟩, ⟨.mload, 0⟩, ⟨.inc, 0⟩]⟩,
   ⟨"inc by and set",
    "counter foo\ncounter bar\n/(.*)/ \x7b\nfoo += $1\nbar = $1\n\x7d",
    [⟨.matchOp, 0⟩, ⟨.jnm, 10⟩, ⟨.mload, 0⟩, ⟨.push, 0⟩, ⟨.capref, 1⟩,
     ⟨.inc, 1⟩, ⟨.mload, 1⟩, ⟨.push, 0⟩, ⟨.capref, 1⟩, ⟨.set, 0⟩]⟩,
   ⟨"cond expr gt",
    "counter foo\n1 > 0 \x7b\n  foo++\n\x7d\n",
    [⟨.push, 1⟩, ⟨.push, 0⟩, ⟨.cmp, 1⟩, ⟨.jnm, 6⟩, ⟨.mload, 0⟩, ⟨.inc, 0⟩]⟩,
   ⟨"cond expr lt",
    "counter foo\n1 < 0 \x7b\n  foo++\n\x7d\n",
    [⟨.push, 1⟩, ⟨.push, 0⟩, ⟨.cmp, -1⟩, ⟨.jnm, 6⟩, ⟨.mload, 0⟩, ⟨.inc, 0⟩]⟩,
   ⟨"cond expr eq",
    "counter foo\n1 == 0 \x7b\n  foo++\n\x7d\n",
    [⟨.push, 1⟩, ⟨.push, 0⟩, ⟨.cmp, 0⟩, ⟨.jnm, 6⟩, ⟨.mload, 0⟩, ⟨.inc, 0⟩]⟩,
   ⟨"cond expr le",
    "counter foo\n1 <= 0 \x7b\n  foo++\n\x7d\n",
    [⟨.push, 1⟩, ⟨.push, 0⟩, ⟨.cmp, 1⟩, ⟨.jm, 6⟩, ⟨.mload, 0⟩, ⟨.inc, 0⟩]⟩,
   ⟨"cond expr ge",
    "counter foo\n1 >= 0 \x7b\n  foo++\n\x7d\n",
    [⟨.push, 1⟩, ⟨.push, 0⟩, ⟨.cmp, -1⟩, ⟨.jm, 6⟩, ⟨.mload, 0⟩, ⟨.inc, 0⟩]⟩,
   ⟨"cond expr ne",
    "counter foo\n1 != 0 \x7b\n  foo++\n\x7d\n",
    [⟨.push, 1⟩, ⟨.push, 0⟩, ⟨.cmp, 0⟩, ⟨.jm, 6⟩, ⟨.mload, 0⟩, ⟨.inc, 0⟩]⟩,
   ⟨"nested cond",
    "counter foo\n/(.*)/ \x7b\n  $1 <= 1 \x7b\n    foo++\n  \x7d\n\x7d",
    [⟨.matchOp, 0⟩, ⟨.jnm, 9⟩, ⟨.push, 0⟩, ⟨.capref, 1⟩, ⟨.push, 1⟩,
     ⟨.cmp, 1⟩, ⟨.jm, 9⟩, ⟨.mload, 0⟩, ⟨.inc, 0⟩]⟩]

/-- The parsed form of the test program "1 OP 0 \x7b foo++ \x7d": one block
whose condition compares the literals 1 and 0 with `op` and whose body
increments metric 0. -/
def relTestProg (op : relop) : stmts :=
  .cons (.block (.rel (.lit 1) op (.lit 0)) (.cons (.inc 0) .nil)) .nil

/-- The `programs` table index of the "cond expr" entry for each relational
operator. -/
def relTableIndex : relop → Nat
  | .gt => 5
  | .lt => 6
  | .eq => 7
  | .le => 8
  | .ge => 9
  | .ne => 10

-- ===== C5 / C6: code generator claims =====

/-- C5: for each of the six relational operators compiled from a source
condition of the form "1 OP 0", the emitted bytecode carries the cmp operand
and branch opcode of the section 4.3 table (`<` emits cmp -1 then jnm, `<=`
cmp 1 then jm, `==` cmp 0 then jnm, `!=` cmp 0 then jm, `>=` cmp -1 then jm,
`>` cmp 1 then jnm), and in each case the compiled program coincides with the
expected bytecode recorded in the `programs` test table of
src/unnamed/part_000. -/
theorem relops_emit_cmp_and_branch_per_table :
    (Compile (relTestProg .lt)
        = [⟨.push, 1⟩, ⟨.push, 0⟩, ⟨.cmp, -1⟩, ⟨.jnm, 6⟩, ⟨.mload, 0⟩, ⟨.inc, 0⟩]
      ∧ (programs.get? (relTableIndex .lt)).map testProgram.prog
        = some (Compile (relTestProg .lt)))
    ∧ (Compile (relTestProg .le)
        = [⟨.push, 1⟩, ⟨.push, 0⟩, ⟨.cmp, 1⟩, ⟨.jm, 6⟩, ⟨.mload, 0⟩, ⟨.inc, 0⟩]
      ∧ (programs.get? (relTableIndex .le)).map testProgram.prog
        = some (Compile (relTestProg .le)))
    ∧ (Compile (relTestProg .eq)
        = [⟨.push, 1⟩, ⟨.push, 0⟩, ⟨.cmp, 0⟩, ⟨.jnm, 6⟩, ⟨.mload, 0⟩, ⟨.inc, 0⟩]
      ∧ (programs.get? (relTableIndex .eq)).map testProgram.prog
        = some (Compile (relTestProg .eq)))
    ∧ (Compile (relTestProg .ne)
        = [⟨.push, 1⟩, ⟨.push, 0⟩, ⟨.cmp, 0⟩, ⟨.jm, 6⟩, ⟨.mload, 0⟩, ⟨.inc, 0⟩]
      ∧ (programs.get? (relTableIndex .ne)).map testProgram.prog
        = some (Compile (relTestProg .ne)))
    ∧ (Compile (relTestProg .ge)
        = [⟨.push, 1⟩, ⟨.push, 0⟩, ⟨.cmp, -1⟩, ⟨.jm, 6⟩, ⟨.mload, 0⟩, ⟨.inc, 0⟩]
      ∧ (programs.get? (relTableIndex .ge)).map testProgram.prog
        = some (Compile (relTestProg .ge)))
    ∧ (Compile (relTestProg .gt)
        = [⟨.push, 1⟩, ⟨.push, 0⟩, ⟨.cmp, 1⟩, ⟨.jnm, 6⟩, ⟨.mload, 0⟩, ⟨.inc, 0⟩]
      ∧ (programs.get? (relTableIndex .gt)).map testProgram.prog
        = some (Compile (relTestProg .gt))) := by
  decide

/-- C6: compiling "counter line_count\n/$/ \x7b line_count++ \x7d" yields
exactly [match 0; jnm 4; mload 0; inc 0] (agreeing with entry 0 of the
`programs` test table), and for any program consisting of a single
pattern-triggered block the jnm operand equals the instruction index
immediately past the compiled action block, i.e. the length of the whole
compiled program. -/
theorem single_block_jnm_targets_past_block :
    Compile (.cons (.block (.rx 0) (.cons (.inc 0) .nil)) .nil)
      = [⟨.matchOp, 0⟩, ⟨.jnm, 4⟩, ⟨.mload, 0⟩, ⟨.inc, 0⟩]
    ∧ (programs.get? 0).map testProgram.prog
      = some (Compile (.cons (.block (.rx 0) (.cons (.inc 0) .nil)) .nil))
    ∧ ∀ (i : Int) (body : stmts),
        (Compile (.cons (.block (.rx i) body) .nil)).get? 1
          = some ⟨.jnm, ((Compile (.cons (.block (.rx i) body) .nil)).length : Int)⟩ := by
  refine ⟨by decide, by decide, ?_⟩
  intro i body
  simp [Compile, compileBlock, compileStmt, compileCond, condBranch, List.get?]
  omega

-- ===== Store lemmas =====

/-- After `Store.set s k m`, key `k` maps to `m`. -/
theorem Store.findKey_set (s : Store) (k : StoreKey) (m : Metric) :
    Store.findKey (Store.set s k m) k = some m := by
  induction s with
  | nil => simp [Store.set, Store.findKey, List.find?]
  | cons e rest ih =>
    by_cases hek : (e.1 == k) = true
    · simp [Store.set, hek, Store.findKey, List.find?]
    · simp only [Store.set, hek, if_false, Bool.false_eq_true]
      simp only [Store.findKey, List.find?, hek] at ih ⊢
      exact ih

/-- Appending a fresh entry makes its key found. -/
theorem Store.findKey_append_fresh (s : Store) (k : StoreKey) (m : Metric)
    (h : Store.findKey s k = none) :
    Store.findKey (s ++ [(k, m)]) k = some m := by
  induction s with
  | nil => simp [Store.findKey, List.find?]
  | cons e rest ih =>
    by_cases hek : (e.1 == k) = true
    · simp [Store.findKey, List.find?, hek] at h
    · simp only [Store.findKey, List.find?, hek] at h ⊢
      exact ih h

-- ===== C2 / C8 / C9 / C1: Store.Add claims =====

/-- C2: adding a metric whose key is present with a different Kind fails and
leaves the store entry untouched: the whole store is unchanged and the key
still maps to the original metric with all of its data. -/
theorem add_kind_mismatch_fails_unchanged (s : Store) (m v : Metric)
    (h : Store.findKey s (hashMetric m.Name m.Program) = some v)
    (hk : m.Kind ≠ v.Kind) :
    (Store.Add s m).1.isSome = true ∧ (Store.Add s m).2 = s ∧
      Store.FindMetricOrNil (Store.Add s m).2 m.Name m.Program = some v := by
  simp [Store.Add, Store.FindMetricOrNil, h, hk]

/-- Witness for C2 at a concrete input. -/
theorem add_kind_mismatch_fails_unchanged_witness :
    (Store.Add [(hashMetric "a" "p", ⟨"a", "p", Kind.Counter, ["k"], []⟩)]
        ⟨"a", "p", Kind.Gauge, ["k"], []⟩).1.isSome = true ∧
    (Store.Add [(hashMetric "a" "p", ⟨"a", "p", Kind.Counter, ["k"], []⟩)]
        ⟨"a", "p", Kind.Gauge, ["k"], []⟩).2
      = [(hashMetric "a" "p", ⟨"a", "p", Kind.Counter, ["k"], []⟩)] ∧
    Store.FindMetricOrNil
        (Store.Add [(hashMetric "a" "p", ⟨"a", "p", Kind.Counter, ["k"], []⟩)]
          ⟨"a", "p", Kind.Gauge, ["k"], []⟩).2 "a" "p"
      = some ⟨"a", "p", Kind.Counter, ["k"], []⟩ :=
  add_kind_mismatch_fails_unchanged
    [(hashMetric "a" "p", ⟨"a", "p", Kind.Counter, ["k"], []⟩)]
    ⟨"a", "p", Kind.Gauge, ["k"], []⟩ ⟨"a", "p", Kind.Counter, ["k"], []⟩
    (by decide) (by decide)

/-- C8: adding a metric whose key is present with the same Kind but different
Keys replaces the entry with the new metric exactly as passed: the old metric
and all its LabelValue data are discarded and nothing is migrated. -/
theorem add_different_keys_replaces_without_migration (s : Store) (m v : Metric)
    (h : Store.findKey s (hashMetric m.Name m.Program) = some v)
    (hk : m.Kind = v.Kind)
    (hkeys : v.Keys ≠ m.Keys) :
    (Store.Add s m).1 = none ∧
    (Store.Add s m).2 = Store.set s (hashMetric m.Name m.Program) m ∧
    Store.FindMetricOrNil (Store.Add s m).2 m.Name m.Program = some m := by
  have hb : (v.Keys == m.Keys) = false := beq_eq_false_iff_ne.mpr hkeys
  simp [Store.Add, Store.FindMetricOrNil, h, hk, hb, Store.findKey_set]

/-- Witness for C8 at a concrete input: the old datum for tuple ["x"] is
discarded when the key list changes. -/
theorem add_different_keys_replaces_without_migration_witness :
    (Store.Add [(hashMetric "a" "p", ⟨"a", "p", Kind.Counter, ["k"], [⟨["x"], ⟨7, 1⟩, 0⟩]⟩)]
        ⟨"a", "p", Kind.Counter, ["k", "j"], []⟩).1 = none ∧
    (Store.Add [(hashMetric "a" "p", ⟨"a", "p", Kind.Counter, ["k"], [⟨["x"], ⟨7, 1⟩, 0⟩]⟩)]
        ⟨"a", "p", Kind.Counter, ["k", "j"], []⟩).2
      = Store.set [(hashMetric "a" "p", ⟨"a", "p", Kind.Counter, ["k"], [⟨["x"], ⟨7, 1⟩, 0⟩]⟩)]
          (hashMetric "a" "p") ⟨"a", "p", Kind.Counter, ["k", "j"], []⟩ ∧
    Store.FindMetricOrNil
        (Store.Add [(hashMetric "a" "p", ⟨"a", "p", Kind.Counter, ["k"], [⟨["x"], ⟨7, 1⟩, 0⟩]⟩)]
          ⟨"a", "p", Kind.Counter, ["k", "j"], []⟩).2 "a" "p"
      = some ⟨"a", "p", Kind.Counter, ["k", "j"], []⟩ :=
  add_different_keys_replaces_without_migration
    [(hashMetric "a" "p", ⟨"a", "p", Kind.Counter, ["k"], [⟨["x"], ⟨7, 1⟩, 0⟩]⟩)]
    ⟨"a", "p", Kind.Counter, ["k", "j"], []⟩
    ⟨"a", "p", Kind.Counter, ["k"], [⟨["x"], ⟨7, 1⟩, 0⟩]⟩
    (by decide) (by decide) (by decide)

/-- C9: on an absent key, Add succeeds and stores the metric directly, and a
subsequent FindMetricOrNil on its (Name, Program) returns it; FindMetricOrNil
is `none` for any (name, prog) pair whose key is absent. -/
theorem add_find_roundtrip (s : Store) (m : Metric) (name prog : String)
    (h1 : Store.findKey s (hashMetric m.Name m.Program) = none)
    (h2 : Store.findKey s (hashMetric name prog) = none) :
    (Store.Add s m).1 = none ∧
    Store.FindMetricOrNil (Store.Add s m).2 m.Name m.Program = some m ∧
    Store.FindMetricOrNil s name prog = none := by
  refine ⟨?_, ?_, ?_⟩
  · simp [Store.Add, h1]
  · simp [Store.Add, Store.FindMetricOrNil, h1]
    exact Store.findKey_append_fresh s _ m h1
  · simp [Store.FindMetricOrNil, h2]

/-- Witness for C9 at a concrete input. -/
theorem add_find_roundtrip_witness :
    (Store.Add [] ⟨"a", "p", Kind.Counter, [], []⟩).1 = none ∧
    Store.FindMetricOrNil (Store.Add [] ⟨"a", "p", Kind.Counter, [], []⟩).2 "a" "p"
      = some ⟨"a", "p", Kind.Counter, [], []⟩ ∧
    Store.FindMetricOrNil [] "b" "q" = none :=
  add_find_roundtrip [] ⟨"a", "p", Kind.Counter, [], []⟩ "b" "q" (by decide) (by decide)

/-- C1 (failing input): re-adding an unchanged (Name, Program, Kind, Keys)
metric with no LabelValues replaces the store entry without migrating the
existing Datum: with `Metric.RemoveDatum` failing not-found on the fresh
metric (spec section 4.4), the `err == nil` guard in the migration loop of
`Store.Add` skips the append, so the old Datum ⟨7, 1⟩ for tuple ["x"] is
dropped, contradicting the migration the claim (and the code's own comment
"copy everything into the new metric") describes. -/
theorem add_same_keys_drops_old_data :
    Store.Add [(hashMetric "a" "p", ⟨"a", "p", Kind.Counter, ["k"], [⟨["x"], ⟨7, 1⟩, 0⟩]⟩)]
        ⟨"a", "p", Kind.Counter, ["k"], []⟩
      = (none, [(hashMetric "a" "p", ⟨"a", "p", Kind.Counter, ["k"], []⟩)]) := by
  decide

-- ===== C7: Store.Range =====

/-- If the callback succeeds on every metric, Range returns nil. -/
theorem Store.Range_all_none (f : Metric → Option String) (t : Store)
    (h : ∀ x ∈ t, f x.2 = none) :
    Store.Range t f = none := by
  induction t with
  | nil => rfl
  | cons a rest ih =>
    have ha : f a.2 = none := h a (List.mem_cons_self a rest)
    have hr := ih (fun x hx => h x (List.mem_cons_of_mem a hx))
    simp [Store.Range, ha, hr]

/-- Range stops at the first callback failure: it returns that error and the
callback is applied exactly to the metrics up to and including the failing
one. -/
theorem Store.Range_stops (f : Metric → Option String) (s1 : Store) (k : StoreKey)
    (m : Metric) (s2 : Store) (e : String)
    (h1 : ∀ x ∈ s1, f x.2 = none)
    (h2 : f m = some e) :
    Store.Range (s1 ++ (k, m) :: s2) f = some e ∧
    Store.RangeVisited (s1 ++ (k, m) :: s2) f = s1.map (fun x => x.2) ++ [m] := by
  induction s1 with
  | nil => simp [Store.Range, Store.RangeVisited, h2]
  | cons a rest ih =>
    have ha : f a.2 = none := h1 a (List.mem_cons_self a rest)
    have hr := ih (fun x hx => h1 x (List.mem_cons_of_mem a hx))
    simp [Store.Range, Store.RangeVisited, ha, hr]

/-- C7: Range applies the callback to stored metrics one at a time; at the
first metric on which it fails it stops (no later metric is visited) and
returns that error, and it returns nil when the callback succeeds
everywhere. -/
theorem range_stops_at_first_error (f : Metric → Option String)
    (s1 s2 t : Store) (k : StoreKey) (m : Metric) (e : String)
    (h1 : ∀ x ∈ s1, f x.2 = none)
    (h2 : f m = some e)
    (h3 : ∀ x ∈ t, f x.2 = none) :
    Store.Range (s1 ++ (k, m) :: s2) f = some e ∧
    Store.RangeVisited (s1 ++ (k, m) :: s2) f = s1.map (fun x => x.2) ++ [m] ∧
    Store.Range t f = none :=
  ⟨(Store.Range_stops f s1 k m s2 e h1 h2).1,
   (Store.Range_stops f s1 k m s2 e h1 h2).2,
   Store.Range_all_none f t h3⟩

/-- Witness for C7 at a concrete input: the callback fails on the metric
named "bad"; the metric after it is never visited. -/
theorem range_stops_at_first_error_witness :
    Store.Range
        [(hashMetric "ok" "p", ⟨"ok", "p", Kind.Counter, [], []⟩),
         (hashMetric "bad" "p", ⟨"bad", "p", Kind.Counter, [], []⟩),
         (hashMetric "later" "p", ⟨"later", "p", Kind.Counter, [], []⟩)]
        (fun x => if x.Name = "bad" then some "boom" else none) = some "boom" ∧
    Store.RangeVisited
        [(hashMetric "ok" "p", ⟨"ok", "p", Kind.Counter, [], []⟩),
         (hashMetric "bad" "p", ⟨"bad", "p", Kind.Counter, [], []⟩),
         (hashMetric "later" "p", ⟨"later", "p", Kind.Counter, [], []⟩)]
        (fun x => if x.Name = "bad" then some "boom" else none)
      = [⟨"ok", "p", Kind.Counter, [], []⟩, ⟨"bad", "p", Kind.Counter, [], []⟩] ∧
    Store.Range [(hashMetric "fine" "p", ⟨"fine", "p", Kind.Counter, [], []⟩)]
        (fun x => if x.Name = "bad" then some "boom" else none) = none := by
  have h := range_stops_at_first_error
    (fun x => if x.Name = "bad" then some "boom" else none)
    [(hashMetric "ok" "p", ⟨"ok", "p", Kind.Counter, [], []⟩)]
    [(hashMetric "later" "p", ⟨"later", "p", Kind.Counter, [], []⟩)]
    [(hashMetric "fine" "p", ⟨"fine", "p", Kind.Counter, [], []⟩)]
    (hashMetric "bad" "p") ⟨"bad", "p", Kind.Counter, [], []⟩ "boom"
    (by decide) (by decide) (by decide)
  exact h

-- ===== C4: Gc never removes a Metric =====

/-- The identity of a metric: everything except its LabelValues. -/
def metricId (m : Metric) : String × String × Kind × List String :=
  (m.Name, m.Program, m.Kind, m.Keys)

/-- A successful RemoveDatum changes only the LabelValues. -/
theorem Metric.RemoveDatum_id (m : Metric) (labels : List String) (m2 : Metric)
    (h : Metric.RemoveDatum m labels = .ok m2) :
    metricId m2 = metricId m := by
  unfold Metric.RemoveDatum at h
  split at h
  · cases h
  · split at h
    · injection h with h2
      subst h2
      rfl
    · cases h

/-- The per-metric Gc sweep changes only the LabelValues. -/
theorem gcMetricAux_id (now : Int) (todo : List LabelValue) :
    ∀ acc : Metric, metricId (gcMetricAux now todo acc).2 = metricId acc := by
  induction todo with
  | nil => intro acc; rfl
  | cons lv rest ih =>
    intro acc
    show metricId (gcMetricAux now (lv :: rest) acc).2 = metricId acc
    rw [gcMetricAux]
    split
    · exact ih acc
    · split
      · cases hrd : Metric.RemoveDatum acc lv.Labels with
        | error e => rfl
        | ok acc2 =>
          rw [(Metric.RemoveDatum_id acc lv.Labels acc2 hrd).symm]
          exact ih acc2
      · exact ih acc

/-- C4: Gc never removes a Metric from the store: after any Gc run (whether
it completes or aborts on an error) the association list has the same keys
in the same order, each still mapping to the same metric identity
(Name, Program, Kind, Keys) — only LabelValues can change, so a metric whose
tuples all expired stays registered. -/
theorem gc_never_removes_metrics (now : Int) (s : Store) :
    ((Store.Gc now s).2).map (fun x => (x.1, metricId x.2))
      = s.map (fun x => (x.1, metricId x.2)) := by
  induction s with
  | nil => rfl
  | cons a rest ih =>
    obtain ⟨k, m⟩ := a
    have hid : metricId (gcMetric now m).2 = metricId m := gcMetricAux_id now m.LabelValues m
    rw [Store.Gc]
    cases hg : gcMetric now m with
    | mk e m2 =>
      have hid2 : metricId m2 = metricId m := by rw [← hid, hg]
      cases e with
      | some err => simp [hid2]
      | none => simp [hid2, ih]

-- ===== C3: Gc expiry condition =====

/-- The retention test applied by the Gc sweep to one LabelValue, with the
branch structure of the loop body: tuples with `Expiry <= 0` are always
kept; otherwise the tuple is kept unless `now - Value.time > Expiry`. -/
def lvKeep (now : Int) (lv : LabelValue) : Bool :=
  if lv.Expiry ≤ 0 then true
  else if lv.Expiry < now - lv.Value.time then false
  else true

/-- Erasing with a predicate that fails on a prefix and first holds at `a`
removes exactly `a`. -/
theorem eraseP_prefix_first {α : Type} {p : α → Bool} (l1 l2 : List α) (a : α)
    (h1 : ∀ x ∈ l1, p x = false) (h2 : p a = true) :
    List.eraseP p (l1 ++ a :: l2) = l1 ++ l2 := by
  induction l1 with
  | nil => simp [List.eraseP_cons, h2]
  | cons x rest ih =>
    have hx : p x = false := h1 x (List.mem_cons_self x rest)
    simp [List.eraseP_cons, hx, ih (fun y hy => h1 y (List.mem_cons_of_mem x hy))]

/-- Unfolding of the Gc loop over the unprocessed suffix `todo` of the
original LabelValues slice: when every tuple in `todo` has the right length
and the labels in play are pairwise distinct, the sweep never errors and
keeps exactly the tuples passing `lvKeep`. -/
theorem gcMetricAux_filter (now : Int) (nm pg : String) (kd : Kind) (keys : List String) :
    ∀ (todo kept : List LabelValue),
      (∀ lv ∈ todo, lv.Labels.length = keys.length) →
      List.Pairwise (fun a b => a.Labels ≠ b.Labels) todo →
      (∀ a ∈ kept, ∀ b ∈ todo, a.Labels ≠ b.Labels) →
      gcMetricAux now todo ⟨nm, pg, kd, keys, kept ++ todo⟩
        = (none, ⟨nm, pg, kd, keys, kept ++ todo.filter (lvKeep now)⟩) := by
  intro todo
  induction todo with
  | nil => intro kept _ _ _; rfl
  | cons lv rest ih =>
    intro kept hlen hpw hdisj
    have hlenlv : lv.Labels.length = keys.length := hlen lv (List.mem_cons_self lv rest)
    have hlenrest : ∀ x ∈ rest, x.Labels.length = keys.length :=
      fun x hx => hlen x (List.mem_cons_of_mem lv hx)
    have hpwrest : List.Pairwise (fun a b => a.Labels ≠ b.Labels) rest :=
      (List.pairwise_cons.mp hpw).2
    have hhead : ∀ b ∈ rest, lv.Labels ≠ b.Labels := (List.pairwise_cons.mp hpw).1
    rw [gcMetricAux]
    by_cases hexp : lv.Expiry ≤ 0
    · rw [if_pos hexp]
      have hk : lvKeep now lv = true := by simp [lvKeep, hexp]
      have hd2 : ∀ a ∈ kept ++ [lv], ∀ b ∈ rest, a.Labels ≠ b.Labels := by
        intro a ha b hb
        rcases List.mem_append.mp ha with h | h
        · exact hdisj a h b (List.mem_cons_of_mem lv hb)
        · rw [List.mem_singleton.mp h]
          exact hhead b hb
      have := ih (kept ++ [lv]) hlenrest hpwrest hd2
      rw [List.append_assoc, List.singleton_append] at this
      rw [this]
      simp [List.filter_cons, hk]
    · rw [if_neg hexp]
      by_cases hstale : lv.Expiry < now - lv.Value.time
      · rw [if_pos hstale]
        have hk : lvKeep now lv = false := by simp [lvKeep, hexp, hstale]
        have hrd : Metric.RemoveDatum ⟨nm, pg, kd, keys, kept ++ lv :: rest⟩ lv.Labels
            = .ok ⟨nm, pg, kd, keys, kept ++ rest⟩ := by
          unfold Metric.RemoveDatum
          rw [if_neg (by simp [hlenlv])]
          have hany : (kept ++ lv :: rest).any (fun x => x.Labels == lv.Labels) = true := by
            simp only [List.any_eq_true]
            exact ⟨lv, by simp, by simp⟩
          rw [if_pos hany]
          have herase : (kept ++ lv :: rest).eraseP (fun x => x.Labels == lv.Labels)
              = kept ++ rest := by
            apply eraseP_prefix_first
            · intro x hx
              exact beq_eq_false_iff_ne.mpr (hdisj x hx lv (List.mem_cons_self lv rest))
            · simp
          rw [herase]
        have hd2 : ∀ a ∈ kept, ∀ b ∈ rest, a.Labels ≠ b.Labels :=
          fun a ha b hb => hdisj a ha b (List.mem_cons_of_mem lv hb)
        simp only [hrd]
        rw [ih kept hlenrest hpwrest hd2]
        simp [List.filter_cons, hk]
      · rw [if_neg hstale]
        have hk : lvKeep now lv = true := by simp [lvKeep, hexp, hstale]
        have hd2 : ∀ a ∈ kept ++ [lv], ∀ b ∈ rest, a.Labels ≠ b.Labels := by
          intro a ha b hb
          rcases List.mem_append.mp ha with h | h
          · exact hdisj a h b (List.mem_cons_of_mem lv hb)
          · rw [List.mem_singleton.mp h]
            exact hhead b hb
        have := ih (kept ++ [lv]) hlenrest hpwrest hd2
        rw [List.append_assoc, List.singleton_append] at this
        rw [this]
        simp [List.filter_cons, hk]

/-- The per-metric sweep on a well-formed metric never errors and keeps
exactly the tuples passing `lvKeep`. -/
theorem gcMetric_filter (now : Int) (m : Metric)
    (hlen : ∀ lv ∈ m.LabelValues, lv.Labels.length = m.Keys.length)
    (hpw : List.Pairwise (fun a b => a.Labels ≠ b.Labels) m.LabelValues) :
    gcMetric now m
      = (none, { m with LabelValues := m.LabelValues.filter (lvKeep now) }) := by
  obtain ⟨nm, pg, kd, keys, lvs⟩ := m
  have h := gcMetricAux_filter now nm pg kd keys lvs [] hlen hpw (by simp)
  simpa [gcMetric] using h

/-- `lvKeep` holds exactly when the tuple is not expired at `now`. -/
theorem lvKeep_iff (now : Int) (lv : LabelValue) :
    lvKeep now lv = true ↔ ¬(0 < lv.Expiry ∧ now - lv.Value.time > lv.Expiry) := by
  unfold lvKeep
  split
  · simp
    omega
  · split
    · simp
      omega
    · simp
      omega

/-- On a store of well-formed metrics, Gc filters every metric's LabelValues
by `lvKeep` and returns no error. -/
theorem Store.Gc_filter (now : Int) : ∀ s : Store,
    (∀ x ∈ s, ∀ lv ∈ x.2.LabelValues, lv.Labels.length = x.2.Keys.length) →
    (∀ x ∈ s, List.Pairwise (fun a b => a.Labels ≠ b.Labels) x.2.LabelValues) →
    Store.Gc now s
      = (none, s.map (fun x =>
          (x.1, { x.2 with LabelValues := x.2.LabelValues.filter (lvKeep now) }))) := by
  intro s
  induction s with
  | nil => intro _ _; rfl
  | cons a rest ih =>
    intro hlen hpw
    obtain ⟨k, m⟩ := a
    have hg := gcMetric_filter now m
      (hlen (k, m) (List.mem_cons_self _ _)) (hpw (k, m) (List.mem_cons_self _ _))
    have hrest := ih (fun x hx => hlen x (List.mem_cons_of_mem _ hx))
      (fun x hx => hpw x (List.mem_cons_of_mem _ hx))
    rw [Store.Gc]
    simp [hg, hrest]

/-- C3: on a store of well-formed metrics, a Gc run at time `now` succeeds
and a LabelValue is retained in its metric exactly when it is not expired:
removed iff its Expiry is positive and `now - Datum.time > Expiry`; in
particular it is retained at `now - Datum.time = Expiry`, and a LabelValue
with zero (absent) or negative Expiry is never removed. -/
theorem gc_removes_exactly_expired (now : Int) (s : Store)
    (hlen : ∀ x ∈ s, ∀ lv ∈ x.2.LabelValues, lv.Labels.length = x.2.Keys.length)
    (hpw : ∀ x ∈ s, List.Pairwise (fun a b => a.Labels ≠ b.Labels) x.2.LabelValues) :
    Store.Gc now s
      = (none, s.map (fun x =>
          (x.1, { x.2 with LabelValues := x.2.LabelValues.filter (lvKeep now) }))) ∧
    ∀ x ∈ s, ∀ lv ∈ x.2.LabelValues,
      (lv ∈ x.2.LabelValues.filter (lvKeep now) ↔
        ¬(0 < lv.Expiry ∧ now - lv.Value.time > lv.Expiry)) := by
  refine ⟨Store.Gc_filter now s hlen hpw, ?_⟩
  intro x _ lv hlv
  rw [List.mem_filter]
  constructor
  · intro h
    exact (lvKeep_iff now lv).mp h.2
  · intro h
    exact ⟨hlv, (lvKeep_iff now lv).mpr h⟩

/-- Witness for C3 at a concrete input: at time 10, the tuple with Expiry 5
written at time 0 is removed, the tuple with Expiry 10 written at time 0
(exactly at the boundary) is retained, and the tuple with zero Expiry is
retained. -/
theorem gc_removes_exactly_expired_witness :
    Store.Gc 10
        [(hashMetric "m" "p",
          ⟨"m", "p", Kind.Counter, ["k"],
           [⟨["a"], ⟨1, 0⟩, 0⟩, ⟨["b"], ⟨2, 0⟩, 5⟩, ⟨["c"], ⟨3, 0⟩, 10⟩]⟩)]
      = (none,
         [(hashMetric "m" "p",
           ⟨"m", "p", Kind.Counter, ["k"],
            [⟨["a"], ⟨1, 0⟩, 0⟩, ⟨["c"], ⟨3, 0⟩, 10⟩]⟩)]) := by
  have h := (gc_removes_exactly_expired 10
    [(hashMetric "m" "p",
      ⟨"m", "p", Kind.Counter, ["k"],
       [⟨["a"], ⟨1, 0⟩, 0⟩, ⟨["b"], ⟨2, 0⟩, 5⟩, ⟨["c"], ⟨3, 0⟩, 10⟩]⟩)]
    (by decide) (by decide)).1
  rw [h]
  rfl

-- ===== C10: Gc aborts the sweep on a RemoveDatum error =====

/-- C10: if the per-metric sweep fails (RemoveDatum returns an error) at some
metric, Gc stops there: it returns that error, the metrics before it are
swept, the failing metric keeps its partially swept state, and the metrics
after it are not examined — their entries (including any expired tuples)
are left exactly as they were. -/
theorem gc_aborts_at_first_remove_error (now : Int) (s1 s2 : Store)
    (k : StoreKey) (m : Metric) (e : String)
    (h1 : ∀ x ∈ s1, (gcMetric now x.2).1 = none)
    (h2 : (gcMetric now m).1 = some e) :
    Store.Gc now (s1 ++ (k, m) :: s2)
      = (some e,
         s1.map (fun x => (x.1, (gcMetric now x.2).2)) ++ (k, (gcMetric now m).2) :: s2) := by
  induction s1 with
  | nil =>
    simp only [List.nil_append, List.map_nil]
    rw [Store.Gc]
    cases hg : gcMetric now m with
    | mk e2 m2 =>
      rw [hg] at h2
      simp only at h2
      subst h2
      simp [hg]
  | cons a rest ih =>
    obtain ⟨k1, m1⟩ := a
    have hh : (gcMetric now (k1, m1).2).1 = none := h1 (k1, m1) (List.mem_cons_self _ _)
    have hrest := ih (fun x hx => h1 x (List.mem_cons_of_mem _ hx))
    rw [List.cons_append, Store.Gc]
    cases hg : gcMetric now m1 with
    | mk e2 m12 =>
      rw [hg] at hh
      simp only at hh
      subst hh
      simp [hrest, hg]

/-- Witness for C10 at a concrete input: the middle metric holds a malformed
tuple (two labels against one key), so its expired tuple makes RemoveDatum
fail; the sweep returns that error, the first metric was swept, and the last
metric's expired tuple survives the run untouched. -/
theorem gc_aborts_at_first_remove_error_witness :
    Store.Gc 10
        [(hashMetric "g" "p", ⟨"g", "p", Kind.Counter, ["k"], [⟨["x"], ⟨0, 0⟩, 1⟩]⟩),
         (hashMetric "bad" "p", ⟨"bad", "p", Kind.Counter, ["k"], [⟨["a", "b"], ⟨0, 0⟩, 1⟩]⟩),
         (hashMetric "l" "p", ⟨"l", "p", Kind.Counter, ["k"], [⟨["y"], ⟨0, 0⟩, 1⟩]⟩)]
      = (some "label values not same length as keys",
         [(hashMetric "g" "p", ⟨"g", "p", Kind.Counter, ["k"], []⟩),
          (hashMetric "bad" "p", ⟨"bad", "p", Kind.Counter, ["k"], [⟨["a", "b"], ⟨0, 0⟩, 1⟩]⟩),
          (hashMetric "l" "p", ⟨"l", "p", Kind.Counter, ["k"], [⟨["y"], ⟨0, 0⟩, 1⟩]⟩)]) := by
  have h := gc_aborts_at_first_remove_error 10
    [(hashMetric "g" "p", ⟨"g", "p", Kind.Counter, ["k"], [⟨["x"], ⟨0, 0⟩, 1⟩]⟩)]
    [(hashMetric "l" "p", ⟨"l", "p", Kind.Counter, ["k"], [⟨["y"], ⟨0, 0⟩, 1⟩]⟩)]
    (hashMetric "bad" "p") ⟨"bad", "p", Kind.Counter, ["k"], [⟨["a", "b"], ⟨0, 0⟩, 1⟩]⟩
    "label values not same length as keys"
    (by decide) (by decide)
  exact h
